import Mathlib

/-!
Verification of the mining core of twitch-miner-cli.

This file shallowly embeds the data model and the operations of the Rust
source (src/models/inventory.rs, src/app/mod.rs, src/app/campaigns.rs,
src/app/watcher_mgmt.rs, src/watcher.rs, src/auth.rs) as executable Lean
definitions and proves properties about them.

Modelling conventions:
* Rust `i32`/`i64` fields become `Int`; `u32`/`u64` become `Nat` with an
  explicit `% 2 ^ 32` where an overflow could occur.
* `f64` arithmetic on drop progress is embedded as exact rational
  arithmetic (`ℚ`): all quantities involved are integers and sixtieths of
  integers in the `i32` range, where the `f64` comparisons performed by the
  source agree with the exact rational ones.  The one claim that is
  genuinely about floating-point behaviour (NaN-freedom of
  `remaining_minutes`) uses a dedicated shadow type `FVal` that models the
  IEEE special values explicitly.
* `HashMap<String, Instant>` becomes an association list with
  first-occurrence lookup; `Instant` values become rationals, with
  `duration_since`/`elapsed` saturating at zero.
* Struct fields that none of the modelled operations read (image URLs,
  benefit edges, UI state, HTTP handles) are omitted from the records.
-/

namespace TwitchMiner

/-- Replace the first element satisfying `p` by its image under `f`
(the shape of a Rust `iter_mut().find(p)` followed by a mutation, or of a
`for` loop with a `break` after the first hit). -/
def updateFirst {α : Type} (p : α → Bool) (f : α → α) : List α → List α
  | [] => []
  | x :: xs => if p x then f x :: xs else x :: updateFirst p f xs

/-- Modify the element at index `i` (as in indexing into a `Vec`). -/
def modifyAt {α : Type} (i : Nat) (f : α → α) : List α → List α
  | [] => []
  | x :: xs => match i with
    | 0 => f x :: xs
    | n + 1 => x :: modifyAt n f xs

/-- Rust `Iterator::position`: index of the first element satisfying `p`. -/
def positionIdx {α : Type} (p : α → Bool) : List α → Option Nat
  | [] => none
  | x :: xs => if p x then some 0 else (positionIdx p xs).map (· + 1)

/-- src/constants.rs: `MAX_EXTRA_MINUTES: i32 = 15`. -/
def MAX_EXTRA_MINUTES : Int := 15

/-- src/models/inventory.rs `DropSelfInfo`. -/
structure DropSelfInfo where
  current_minutes_watched : Int
  is_claimed : Bool
  drop_instance_id : Option String
  deriving DecidableEq, Repr

/-- src/models/inventory.rs `TimedDrop` (benefit edges and start/end times
are not read by any modelled operation and are omitted). -/
structure TimedDrop where
  id : String
  name : String
  required_minutes : Int
  self_info : Option DropSelfInfo
  extra_minutes : Int
  extra_seconds : Int
  deriving DecidableEq, Repr

namespace TimedDrop

/-- Source `TimedDrop::current_minutes`: base server minutes plus the local extra
counters, `base + extra_minutes + extra_seconds / 60` (exact rational in
place of the `f64` of the source). -/
def current_minutes (d : TimedDrop) : ℚ :=
  let base : Int := (d.self_info.map DropSelfInfo.current_minutes_watched).getD 0
  (base : ℚ) + (d.extra_minutes : ℚ) + (d.extra_seconds : ℚ) / 60

/-- Source `TimedDrop::remaining_minutes`: `(required - current).max(0.0)`. -/
def remaining_minutes (d : TimedDrop) : ℚ :=
  max ((d.required_minutes : ℚ) - d.current_minutes) 0

/-- Source `TimedDrop::progress`: `1` when `required_minutes == 0`, otherwise
`min (current/required) 1`. -/
def progress (d : TimedDrop) : ℚ :=
  if d.required_minutes = 0 then 1
  else min (d.current_minutes / (d.required_minutes : ℚ)) 1

/-- Source `TimedDrop::is_claimed`: explicitly claimed, or at 100% progress
(`required > 0 && current >= required`). -/
def is_claimed (d : TimedDrop) : Bool :=
  let explicitly_claimed := (d.self_info.map DropSelfInfo.is_claimed).getD false
  let at_full_progress :=
    decide (0 < d.required_minutes) && decide ((d.required_minutes : ℚ) ≤ d.current_minutes)
  explicitly_claimed || at_full_progress

/-- Source `TimedDrop::can_claim`. -/
def can_claim (d : TimedDrop) : Bool :=
  match d.self_info with
  | some info =>
      decide (d.required_minutes ≤ info.current_minutes_watched)
        && !info.is_claimed && info.drop_instance_id.isSome
  | none => false

/-- Source `TimedDrop::drop_instance_id`. -/
def drop_instance_id (d : TimedDrop) : Option String :=
  d.self_info.bind DropSelfInfo.drop_instance_id

/-- Source `TimedDrop::bump_extra_minute`. -/
def bump_extra_minute (d : TimedDrop) : TimedDrop :=
  if d.extra_minutes < MAX_EXTRA_MINUTES then
    { d with extra_minutes := d.extra_minutes + 1 }
  else d

/-- Source `TimedDrop::bump_extra_second`. -/
def bump_extra_second (d : TimedDrop) : TimedDrop :=
  if d.extra_minutes < MAX_EXTRA_MINUTES then
    let s := d.extra_seconds + 1
    if 60 ≤ s then
      { d with extra_minutes := d.extra_minutes + 1, extra_seconds := 0 }
    else
      { d with extra_seconds := s }
  else d

/-- Source `TimedDrop::reset_local_tracking`. -/
def reset_local_tracking (d : TimedDrop) : TimedDrop :=
  { d with extra_minutes := 0, extra_seconds := 0 }

end TimedDrop

/-- The three local-counter operations of `TimedDrop` (claim C3 quantifies
over arbitrary sequences of these). -/
inductive LocalOp where
  | bumpMinute
  | bumpSecond
  | reset
  deriving DecidableEq, Repr

/-- Apply one local-counter operation. -/
def applyLocalOp (d : TimedDrop) : LocalOp → TimedDrop
  | .bumpMinute => d.bump_extra_minute
  | .bumpSecond => d.bump_extra_second
  | .reset => d.reset_local_tracking

/-- The local-counter invariant of claim C3. -/
def extraInvariant (d : TimedDrop) : Prop :=
  0 ≤ d.extra_minutes ∧ d.extra_minutes ≤ MAX_EXTRA_MINUTES ∧
    0 ≤ d.extra_seconds ∧ d.extra_seconds < 60

instance (d : TimedDrop) : Decidable (extraInvariant d) := by
  unfold extraInvariant; infer_instance

/-- src/models/inventory.rs `Game` (box-art URL omitted). -/
structure Game where
  id : String
  display_name : String
  slug : Option String
  deriving DecidableEq, Repr

/-- src/models/inventory.rs `DropsCampaign` (campaign self-info is not read
by any modelled operation and is omitted); `starts_at`/`ends_at` are
timestamps on the wall clock, modelled as integers. -/
structure DropsCampaign where
  id : String
  name : String
  game : Game
  starts_at : Int
  ends_at : Int
  status : String
  time_based_drops : List TimedDrop
  deriving DecidableEq, Repr

namespace DropsCampaign

/-- Source `DropsCampaign::is_active`, with `Utc::now()` passed in as `now`. -/
def is_active (now : Int) (c : DropsCampaign) : Bool :=
  decide (c.starts_at ≤ now) && decide (now ≤ c.ends_at) && c.status == "ACTIVE"

/-- Source `DropsCampaign::campaign_progress`: average of the per-drop progress
(0 for an empty drop list). -/
def campaign_progress (c : DropsCampaign) : ℚ :=
  if c.time_based_drops.isEmpty then 0
  else (c.time_based_drops.map TimedDrop.progress).sum / (c.time_based_drops.length : ℚ)

/-- The left fold performed by Rust `Iterator::min_by`: the accumulator is
replaced only when comparing strictly greater than the next element, so on
ties the earlier element is kept. -/
def minByRemainingAux (acc : TimedDrop) : List TimedDrop → TimedDrop
  | [] => acc
  | y :: ys =>
      minByRemainingAux (if y.remaining_minutes < acc.remaining_minutes then y else acc) ys

/-- Source `DropsCampaign::first_unclaimed_drop`: the unclaimed drop with minimal
`remaining_minutes` (first on ties).  The rational comparison stands in for
the `f64` `partial_cmp(..).unwrap()`; its NaN-freedom is claim C10, settled
below on the `FVal` float shadow. -/
def first_unclaimed_drop (c : DropsCampaign) : Option TimedDrop :=
  match c.time_based_drops.filter (fun d => !d.is_claimed) with
  | [] => none
  | d :: ds => some (minByRemainingAux d ds)

end DropsCampaign

/-- src/watcher.rs `MiningStatus`. -/
structure MiningStatus where
  channel_login : String
  game_name : String
  drop_name : String
  progress_percent : ℚ
  minutes_watched : Int
  minutes_required : Int
  deriving DecidableEq, Repr

/-- src/watcher.rs `WatcherEvent`. -/
inductive WatcherEvent where
  | status (s : MiningStatus)
  | transientError (msg : String)
  | fatalError (msg : String)
  | claimed (dropName : String)
  | campaignComplete (gameName : String)
  deriving DecidableEq, Repr

/-- src/app/state.rs `AppState`. -/
inductive AppState where
  | idle
  | inventoryFetch
  | allCampaignsFetch
  | channelSelection
  | watching
  | loginPending
  | exit
  deriving DecidableEq, Repr

/-- The scheduler state of src/app/mod.rs `App`, restricted to the fields
the modelled operations read or write.  `watcher_rx: Option<Receiver<..>>`
becomes the boolean `watcher_active` (`watcher_rx.is_some()`),
`watching_channel`/`watching_target` keep only the channel login, the
`failed_game_attempts: HashMap<String, Instant>` becomes an association
list with first-occurrence lookup and rational timestamps on the monotonic
clock, and `transient_error_count: u32` becomes a `Nat` reduced `% 2 ^ 32`
on increment. -/
structure App where
  state : AppState
  campaigns : List DropsCampaign
  all_campaigns : List DropsCampaign
  priority_games : List String
  excluded_games : List String
  watching_channel : Option String
  watching_target : Option String
  mining_status : Option MiningStatus
  watcher_active : Bool
  failed_game_attempts : List (String × ℚ)
  current_attempt_game : Option String
  has_live_stream : Bool
  transient_error_count : Nat
  gql_present : Bool
  deriving DecidableEq, Repr

namespace App

/-- src/app/watcher_mgmt.rs `stop_watching`. -/
def stop_watching (a : App) : App :=
  { a with watching_channel := none, watching_target := none,
           watcher_active := false, has_live_stream := false,
           mining_status := none, current_attempt_game := none,
           state := .idle }

/-- Model of `HashMap::insert` on the association-list model: the new binding
shadows (replaces) any previous binding of the key. -/
def insertFailedAttempt (g : String) (t : ℚ) (m : List (String × ℚ)) :
    List (String × ℚ) :=
  (g, t) :: m.filter (fun p => p.1 ≠ g)

/-- src/app/campaigns.rs `mark_drop_claimed`, innermost step: set
`is_claimed` on the drop's self-info, creating a minimal one (with
`current_minutes_watched = required_minutes` and no instance id) when
absent. -/
def setDropClaimed (d : TimedDrop) : TimedDrop :=
  match d.self_info with
  | some info => { d with self_info := some { info with is_claimed := true } }
  | none =>
      { d with
        self_info := some
          { current_minutes_watched := d.required_minutes,
            is_claimed := true, drop_instance_id := none } }

/-- src/app/campaigns.rs `mark_drop_claimed`, per-campaign step: within a
campaign of the matching game, update the first drop of the matching name,
then `break`. -/
def claimDropInCampaign (game_name drop_name : String) (c : DropsCampaign) :
    DropsCampaign :=
  if c.game.display_name == game_name then
    { c with
      time_based_drops :=
        updateFirst (fun d => d.name == drop_name) setDropClaimed c.time_based_drops }
  else c

/-- src/app/campaigns.rs `mark_drop_claimed`: applied to every matching
campaign in both `all_campaigns` and `campaigns`. -/
def mark_drop_claimed (a : App) (game_name drop_name : String) : App :=
  { a with
      all_campaigns := a.all_campaigns.map (claimDropInCampaign game_name drop_name),
      campaigns := a.campaigns.map (claimDropInCampaign game_name drop_name) }

/-- src/app/watcher_mgmt.rs `handle_worker_event`, `Status` arm: locate the
drop to reconcile inside a campaign — by name among unclaimed drops, else
by name, else (for the fallback name "Active Drop") the first unclaimed
drop. -/
def statusDropIdx (drops : List TimedDrop) (drop_name : String) : Option Nat :=
  (positionIdx (fun d => d.name == drop_name && !d.is_claimed) drops).orElse fun _ =>
    (positionIdx (fun d => d.name == drop_name) drops).orElse fun _ =>
      if drop_name == "Active Drop" then positionIdx (fun d => !d.is_claimed) drops
      else none

/-- The per-drop reconciliation of the `Status` arm: record the server
minutes in `self_info` (creating it when absent) and reset the extra
counters exactly when the server minutes are ≥ the local `current_minutes`
computed before the update. -/
def reconcileDrop (minutes_watched : Int) (d : TimedDrop) : TimedDrop :=
  let local_minutes := d.current_minutes
  let api_minutes : ℚ := (minutes_watched : ℚ)
  let d' : TimedDrop :=
    match d.self_info with
    | some info =>
        { d with self_info := some { info with current_minutes_watched := minutes_watched } }
    | none =>
        { d with
          self_info := some
            { current_minutes_watched := minutes_watched,
              is_claimed := false, drop_instance_id := none } }
  if local_minutes ≤ api_minutes then
    { d' with extra_minutes := 0, extra_seconds := 0 }
  else d'

/-- The `Status` arm applied to one campaign (the body of the `for` loop
over `all_campaigns` before its `break`). -/
def applyStatusToCampaign (st : MiningStatus) (c : DropsCampaign) : DropsCampaign :=
  match statusDropIdx c.time_based_drops st.drop_name with
  | none => c
  | some idx =>
      { c with time_based_drops :=
          modifyAt idx (reconcileDrop st.minutes_watched) c.time_based_drops }

/-- src/app/watcher_mgmt.rs `handle_worker_event` (the log lines and
desktop notifications are side effects outside the model; `now` is the
monotonic-clock reading taken by `Instant::now()` in the `FatalError`
arm). -/
def handle_worker_event (now : ℚ) (a : App) : WatcherEvent → App
  | .status st =>
      let a1 :=
        { a with
          all_campaigns :=
            updateFirst (fun c => c.game.display_name == st.game_name)
              (applyStatusToCampaign st) a.all_campaigns }
      { a1 with mining_status := some st, has_live_stream := true,
                current_attempt_game := none, transient_error_count := 0 }
  | .transientError _ =>
      let count := (a.transient_error_count + 1) % 2 ^ 32
      if 10 ≤ count then
        stop_watching { a with transient_error_count := 0 }
      else
        { a with transient_error_count := count }
  | .fatalError _ =>
      let a1 := { a with has_live_stream := false }
      let failed_game :=
        (a1.current_attempt_game).orElse fun _ => a1.mining_status.map MiningStatus.game_name
      let a2 := { a1 with current_attempt_game := none }
      let a3 :=
        match failed_game with
        | some g => { a2 with failed_game_attempts :=
            insertFailedAttempt g now a2.failed_game_attempts }
        | none => a2
      stop_watching { a3 with transient_error_count := 0 }
  | .claimed name =>
      let game_name := (a.mining_status.map MiningStatus.game_name).getD "Unknown Game"
      mark_drop_claimed a game_name name
  | .campaignComplete _ =>
      stop_watching a

/-- The matching-game branch of `bump_active_drop_second`: bump the
extra-seconds of the first unclaimed drop (in list order). -/
def bumpFirstUnclaimed (c : DropsCampaign) : DropsCampaign :=
  { c with
    time_based_drops :=
      updateFirst (fun d => !d.is_claimed) TimedDrop.bump_extra_second
        c.time_based_drops }

/-- src/app/watcher_mgmt.rs `bump_active_drop_second`, per-campaign step:
bump only campaigns of the given game. -/
def bumpCampaignIfGame (g : String) (c : DropsCampaign) : DropsCampaign :=
  if c.game.display_name == g then bumpFirstUnclaimed c
  else c

/-- The "active game" determination at the top of
`bump_active_drop_second`: the game of the mining status when present,
otherwise the current attempt. -/
def active_game (a : App) : Option String :=
  match a.mining_status with
  | some st => some st.game_name
  | none => a.current_attempt_game

/-- src/app/watcher_mgmt.rs `bump_active_drop_second`. -/
def bump_active_drop_second (a : App) : App :=
  match active_game a with
  | some g =>
      { a with all_campaigns := a.all_campaigns.map (bumpCampaignIfGame g),
               campaigns := a.campaigns.map (bumpCampaignIfGame g) }
  | none => a

end App

/-- The server-reported minutes of a drop,
`self_info.map(|s| s.current_minutes_watched).unwrap_or(0)` (the `base` of
`TimedDrop::current_minutes`). -/
def TimedDrop.server_minutes (d : TimedDrop) : Int :=
  (d.self_info.map DropSelfInfo.current_minutes_watched).getD 0

/-- src/app/mod.rs `App::init_default`, restricted to the modelled fields
(`App::new` additionally installs the GraphQL client, setting
`gql_present`). -/
def App.init_default : App :=
  { state := .idle, campaigns := [], all_campaigns := [],
    priority_games := [], excluded_games := [],
    watching_channel := none, watching_target := none,
    mining_status := none, watcher_active := false,
    failed_game_attempts := [], current_attempt_game := none,
    has_live_stream := false, transient_error_count := 0,
    gql_present := false }

/-- src/app/mod.rs `App::fetch_all_campaigns`, per-drop carry-over: a
freshly parsed drop keeps its parsed extra counters unless the old campaign
(already located by id) contains a drop of the same id, in which case the
old extra counters are copied forward. -/
def mergeDrop (old_drops : List TimedDrop) (d : TimedDrop) : TimedDrop :=
  match old_drops.find? (fun od => od.id == d.id) with
  | none => d
  | some od => { d with extra_minutes := od.extra_minutes,
                        extra_seconds := od.extra_seconds }

/-- src/app/mod.rs `App::fetch_all_campaigns`, per-campaign carry-over:
locate the first old campaign with the same id, then merge each drop. -/
def mergeCampaign (old : List DropsCampaign) (c : DropsCampaign) : DropsCampaign :=
  match old.find? (fun oc => oc.id == c.id) with
  | none => c
  | some oc =>
      { c with time_based_drops := c.time_based_drops.map (mergeDrop oc.time_based_drops) }

/-- src/app/mod.rs `App::fetch_all_campaigns`, the pure replacement of
`all_campaigns`: `old` is the previous snapshot, `incoming` the list of
campaigns parsed from the response (parse failures are dropped before this
point and are not modelled). -/
def merge_all_campaigns (old incoming : List DropsCampaign) : List DropsCampaign :=
  incoming.map (mergeCampaign old)

/-- The extra counters of the first drop with the given id anywhere in a
campaign list (an observation used to compare snapshots for claim C2). -/
def findDropExtras (cs : List DropsCampaign) (drop_id : String) : Option (Int × Int) :=
  cs.findSome? fun c =>
    (c.time_based_drops.find? (fun d => d.id == drop_id)).map
      fun d => (d.extra_minutes, d.extra_seconds)

/-- One `node` of the `DirectoryPage_Game` response stream edges, reduced
to the fields `try_autostart` reads. -/
structure StreamEdge where
  login : Option String
  channel_id : Option String
  broadcast_id : Option String
  viewers : Int
  deriving DecidableEq, Repr

/-- The (login, channel id, broadcast id, game) tuple `try_autostart`
starts a watch on. -/
structure AutostartTarget where
  login : String
  channel_id : String
  broadcast_id : String
  game : String
  deriving DecidableEq, Repr

/-- The three ways `try_autostart` can return: the early `Ok("Already
watching")`, `Ok(..)` after starting a watch, and the final
`Err("No suitable streams found")`. -/
inductive AutostartResult where
  | alreadyWatching
  | started (t : AutostartTarget)
  | noSuitableStreams
  deriving DecidableEq, Repr

/-- Source `game_name.to_lowercase().replace(" ", "-")`. -/
def slugify (g : String) : String := (g.toLower).replace " " "-"

/-- Model of `Instant` elapsed time: `now.duration_since(t)` saturates at zero when
`t` is in the future. -/
def elapsedSat (now t : ℚ) : ℚ := max (now - t) 0

/-- The cooldown test of `try_autostart` / `check_priority_switch`:
`failed_game_attempts.get(game)` exists and is less than 300 s old. -/
def onCooldown (failed : List (String × ℚ)) (mono_now : ℚ) (g : String) : Bool :=
  match failed.lookup g with
  | some t => decide (elapsedSat mono_now t < 300)
  | none => false

/-- The per-campaign eligibility test of `try_autostart`: same game,
active, progress below 100%, and at least one unclaimed drop. -/
def campaignEligible (wall_now : Int) (g : String) (c : DropsCampaign) : Bool :=
  c.game.display_name == g && c.is_active wall_now
    && decide (c.campaign_progress < 1) && c.first_unclaimed_drop.isSome

/-- The stream-edge scan of `try_autostart`: the first edge with a `node`
carrying broadcaster login, broadcaster id and stream id (edges without a
`node` are skipped). -/
def findValidEdge : List (Option StreamEdge) → Option (String × String × String)
  | [] => none
  | none :: es => findValidEdge es
  | some e :: es =>
      match e.login, e.channel_id, e.broadcast_id with
      | some l, some cid, some bid => some (l, cid, bid)
      | _, _, _ => findValidEdge es

/-- The game-selection loop of `try_autostart` over the (cloned) priority
list: skip games on cooldown, games without an eligible campaign in either
list (with the source's redundant second check of the inventory list), and
games yielding no valid stream edge; `directory` is the
`DirectoryPage_Game` call, indexed by slug (a failed call behaves as an
empty edge list). -/
def autostartLoop (wall_now : Int) (mono_now : ℚ) (failed : List (String × ℚ))
    (all_c inv_c : List DropsCampaign) (gql_present : Bool)
    (directory : String → List (Option StreamEdge)) :
    List String → Option AutostartTarget
  | [] => none
  | g :: gs =>
      if onCooldown failed mono_now g then
        autostartLoop wall_now mono_now failed all_c inv_c gql_present directory gs
      else
        let has_active_campaign :=
          all_c.any (campaignEligible wall_now g) || inv_c.any (campaignEligible wall_now g)
        if !has_active_campaign && !(inv_c.any (campaignEligible wall_now g)) then
          autostartLoop wall_now mono_now failed all_c inv_c gql_present directory gs
        else if !gql_present then
          autostartLoop wall_now mono_now failed all_c inv_c gql_present directory gs
        else
          match findValidEdge (directory (slugify g)) with
          | some (l, cid, bid) =>
              some { login := l, channel_id := cid, broadcast_id := bid, game := g }
          | none => autostartLoop wall_now mono_now failed all_c inv_c gql_present directory gs

/-- The state effect of src/app/watcher_mgmt.rs `start_watching` (spawning
the worker task and the auth/GQL plumbing are outside the model): no-op
when a watcher is already active, otherwise record the channel, activate
the watcher and enter the `Watching` state. -/
def App.start_watching_state (a : App) (login : String) : App :=
  if a.watcher_active then a
  else
    { a with watcher_active := true, mining_status := none,
             watching_channel := some login, state := .watching }

/-- src/app/watcher_mgmt.rs `try_autostart`: early-out when already
mining, prune cooldown entries 300 s old or older, then run the selection
loop; on success set `current_attempt_game` and start watching.
`wall_now` is `Utc::now()` (campaign activity), `mono_now` the
`Instant::now()` reading (cooldowns). -/
def App.try_autostart (wall_now : Int) (mono_now : ℚ)
    (directory : String → List (Option StreamEdge)) (a : App) :
    App × AutostartResult :=
  if a.mining_status.isSome || a.watcher_active then (a, .alreadyWatching)
  else
    let a1 := { a with failed_game_attempts :=
      a.failed_game_attempts.filter (fun p => decide (elapsedSat mono_now p.2 < 300)) }
    match autostartLoop wall_now mono_now a1.failed_game_attempts a1.all_campaigns
        a1.campaigns a1.gql_present directory a1.priority_games with
    | some t =>
        let a2 := { a1 with current_attempt_game := some t.game }
        (a2.start_watching_state t.login, .started t)
    | none => (a1, .noSuitableStreams)

/-- One response of the token endpoint during device-code polling: the
HTTP status, and the access token the body parses to (`none` when the body
does not parse as a `TokenResponse`; only consulted on success statuses). -/
structure TokenPollResponse where
  status : Nat
  token : Option String
  deriving DecidableEq, Repr

/-- Outcome of src/auth.rs `poll_for_token`: success, body-parse failure,
the fatal non-pending error, or device-code expiry. -/
inductive PollOutcome where
  | ok (token : String)
  | parseError
  | protocolError (status : Nat)
  | expired
  deriving DecidableEq, Repr

/-- The polling loop of src/auth.rs `poll_for_token`: `fuel` counts the
remaining attempts, `attempt` the current index.  A success status
(`reqwest::StatusCode::is_success`, i.e. 2xx) parses the body for the
token; status 400 means pending and continues; any other status is the
fatal error. -/
def pollLoop (responses : Nat → TokenPollResponse) : Nat → Nat → PollOutcome
  | 0, _ => .expired
  | fuel + 1, attempt =>
      let r := responses attempt
      if 200 ≤ r.status ∧ r.status ≤ 299 then
        match r.token with
        | some t => PollOutcome.ok t
        | none => PollOutcome.parseError
      else if r.status ≠ 400 then .protocolError r.status
      else pollLoop responses fuel (attempt + 1)

/-- src/auth.rs `poll_for_token`: at most `expires_in / interval` polls. -/
def poll_for_token (responses : Nat → TokenPollResponse)
    (interval expires_in : Nat) : PollOutcome :=
  pollLoop responses (expires_in / interval) 0

-- Concrete sample data used to instantiate the theorems below.

/-- An unclaimed 60-minute drop at 10 server minutes, no local extras. -/
def dropC4 : TimedDrop :=
  { id := "d-a", name := "Drop A", required_minutes := 60,
    self_info := some { current_minutes_watched := 10, is_claimed := false,
                        drop_instance_id := none },
    extra_minutes := 0, extra_seconds := 0 }

/-- An active campaign for the priority game "GameA" with one unclaimed
drop. -/
def campaignC4 : DropsCampaign :=
  { id := "c-a", name := "Camp A",
    game := { id := "g-a", display_name := "GameA", slug := none },
    starts_at := 0, ends_at := 1000, status := "ACTIVE",
    time_based_drops := [dropC4] }

/-- A scheduler currently mining "GameB" while the priority list also
holds "GameA", whose campaign sits in `all_campaigns`. -/
def appC4 : App :=
  { App.init_default with
    priority_games := ["GameA", "GameB"],
    all_campaigns := [campaignC4],
    mining_status := some
      { channel_login := "chan", game_name := "GameB", drop_name := "Drop B",
        progress_percent := 0, minutes_watched := 0, minutes_required := 60 } }

/-- A drop with 40 server minutes and local extras 1 min 30 s
(`current_minutes` = 41.5). -/
def dropC1 : TimedDrop :=
  { id := "d-x", name := "DropX", required_minutes := 60,
    self_info := some { current_minutes_watched := 40, is_claimed := false,
                        drop_instance_id := none },
    extra_minutes := 1, extra_seconds := 30 }

/-- A campaign for "GameA" holding `dropC1`. -/
def campaignC1 : DropsCampaign :=
  { id := "c-x", name := "Camp X",
    game := { id := "g-x", display_name := "GameA", slug := none },
    starts_at := 0, ends_at := 1000, status := "ACTIVE",
    time_based_drops := [dropC1] }

/-- A scheduler with `campaignC1` in `all_campaigns`. -/
def appC1 : App := { App.init_default with all_campaigns := [campaignC1] }

/-- A status probe for `dropC1` reporting 45 server minutes
(45 ≥ 41.5, so the extra counters must reset). -/
def stC1 : MiningStatus :=
  { channel_login := "chan", game_name := "GameA", drop_name := "DropX",
    progress_percent := 75, minutes_watched := 45, minutes_required := 60 }

/-- An unclaimed claimable drop for the C7 witness. -/
def dropC7 : TimedDrop :=
  { id := "d-7", name := "DropX", required_minutes := 60,
    self_info := some { current_minutes_watched := 30, is_claimed := false,
                        drop_instance_id := some "inst-1" },
    extra_minutes := 0, extra_seconds := 0 }

/-- A campaign for "GameA" holding `dropC7`. -/
def campaignC7 : DropsCampaign :=
  { id := "c-7", name := "Camp 7",
    game := { id := "g-7", display_name := "GameA", slug := none },
    starts_at := 0, ends_at := 1000, status := "ACTIVE",
    time_based_drops := [dropC7] }

/-- A scheduler with `campaignC7` in `all_campaigns`. -/
def appC7 : App := { App.init_default with all_campaigns := [campaignC7] }

/-- A drop with accumulated local extras (5 min 7 s) in the old snapshot. -/
def dropC2old : TimedDrop :=
  { id := "d1", name := "Drop 1", required_minutes := 60, self_info := none,
    extra_minutes := 5, extra_seconds := 7 }

/-- A freshly parsed copy of the same drop (serde skips the extra
counters, so they parse as 0). -/
def dropC2new : TimedDrop :=
  { id := "d1", name := "Drop 1", required_minutes := 60, self_info := none,
    extra_minutes := 0, extra_seconds := 0 }

/-- The old snapshot's campaign "A" holding `dropC2old`. -/
def campaignC2old : DropsCampaign :=
  { id := "A", name := "Camp A",
    game := { id := "g-2", display_name := "GameC", slug := none },
    starts_at := 0, ends_at := 1000, status := "ACTIVE",
    time_based_drops := [dropC2old] }

/-- An incoming campaign with a fresh id "B" that now carries drop "d1". -/
def campaignC2newB : DropsCampaign :=
  { id := "B", name := "Camp B",
    game := { id := "g-2", display_name := "GameC", slug := none },
    starts_at := 0, ends_at := 1000, status := "ACTIVE",
    time_based_drops := [dropC2new] }

/-- An incoming campaign with the same id "A" carrying the fresh drop. -/
def campaignC2newA : DropsCampaign :=
  { id := "A", name := "Camp A",
    game := { id := "g-2", display_name := "GameC", slug := none },
    starts_at := 0, ends_at := 1000, status := "ACTIVE",
    time_based_drops := [dropC2new] }

/-- A logged-out idle scheduler with one stale cooldown entry ("GameA"
failed at monotonic time 0). -/
def appC5 : App :=
  { App.init_default with failed_game_attempts := [("GameA", 0)] }

/-- A token endpoint that always answers HTTP 201 with a parsable token
body. -/
def responses201 : Nat → TokenPollResponse :=
  fun _ => { status := 201, token := some "tok" }

/-- A token endpoint that answers 400 (pending) thirty times, then 200
with the token. -/
def responsesC9 : Nat → TokenPollResponse :=
  fun i => if i < 30 then { status := 400, token := none }
           else { status := 200, token := some "tok" }

/-- src/auth.rs `AuthState` (user_id is a `u64`). -/
structure AuthState where
  access_token : String
  user_id : Nat
  device_id : String
  login : String
  deriving DecidableEq, Repr

/-- src/watcher.rs `WatchTarget`. -/
structure WatchTarget where
  channel_id : String
  channel_login : String
  broadcast_id : String
  spade_url : String
  token : String
  sig : String
  deriving DecidableEq, Repr

/-- The fragment of the serde_json value model that the spade payload
uses. -/
inductive Json where
  | str (s : String)
  | bool (b : Bool)
  | natNum (n : Nat)
  | arr (elems : List Json)
  | obj (fields : List (String × Json))
  deriving Repr

/-- Lowercase hex digit, as serde_json emits in `\u00XX` escapes. -/
def hexDigit (n : Nat) : Char :=
  if n < 10 then Char.ofNat (48 + n) else Char.ofNat (87 + n)

/-- serde_json string escaping: `"` and `\` get a backslash, the five
short control escapes are used, other control characters (< 0x20) become
`\u00XX`, everything else passes through. -/
def escapeChar (c : Char) : List Char :=
  if c = '"' then ['\\', '"']
  else if c = '\\' then ['\\', '\\']
  else if c = '\n' then ['\\', 'n']
  else if c = '\r' then ['\\', 'r']
  else if c = '\t' then ['\\', 't']
  else if c.toNat = 8 then ['\\', 'b']
  else if c.toNat = 12 then ['\\', 'f']
  else if c.toNat < 32 then ['\\', 'u', '0', '0', hexDigit (c.toNat / 16), hexDigit (c.toNat % 16)]
  else [c]

/-- Escape a whole string. -/
def escapeString (s : String) : String := ⟨s.data.flatMap escapeChar⟩

mutual

/-- Model of `serde_json::to_string`: compact encoding, object fields in struct
declaration order (derived `Serialize`). -/
def serializeJson : Json → String
  | .str s => "\"" ++ escapeString s ++ "\""
  | .bool b => if b then "true" else "false"
  | .natNum n => toString n
  | .arr xs => "[" ++ String.intercalate "," (serializeList xs) ++ "]"
  | .obj fs => "\x7b" ++ String.intercalate "," (serializeFields fs) ++ "\x7d"

/-- Serialize the elements of an array. -/
def serializeList : List Json → List String
  | [] => []
  | x :: xs => serializeJson x :: serializeList xs

/-- Serialize the fields of an object. -/
def serializeFields : List (String × Json) → List String
  | [] => []
  | (k, v) :: fs => ("\"" ++ escapeString k ++ "\":" ++ serializeJson v) :: serializeFields fs

end

/-- The UTF-8 bytes of a string (`String::as_bytes`), as naturals. -/
def stringToBytes (s : String) : List Nat := s.toUTF8.toList.map UInt8.toNat

/-- The standard base64 alphabet character for a 6-bit value. -/
def b64char (n : Nat) : Char :=
  if n < 26 then Char.ofNat (65 + n)
  else if n < 52 then Char.ofNat (97 + (n - 26))
  else if n < 62 then Char.ofNat (48 + (n - 52))
  else if n = 62 then '+'
  else '/'

/-- The 6-bit value of a base64 alphabet character. -/
def b64val (c : Char) : Option Nat :=
  if 'A' ≤ c ∧ c ≤ 'Z' then some (c.toNat - 65)
  else if 'a' ≤ c ∧ c ≤ 'z' then some (c.toNat - 97 + 26)
  else if '0' ≤ c ∧ c ≤ '9' then some (c.toNat - 48 + 52)
  else if c = '+' then some 62
  else if c = '/' then some 63
  else none

/-- Model of `base64::engine::general_purpose::STANDARD.encode`: three bytes per
four characters, `=`-padded. -/
def base64Encode : List Nat → List Char
  | [] => []
  | [b1] => [b64char (b1 / 4), b64char (b1 % 4 * 16), '=', '=']
  | [b1, b2] =>
      [b64char (b1 / 4), b64char (b1 % 4 * 16 + b2 / 16), b64char (b2 % 16 * 4), '=']
  | b1 :: b2 :: b3 :: rest =>
      b64char (b1 / 4) :: b64char (b1 % 4 * 16 + b2 / 16) ::
        b64char (b2 % 16 * 4 + b3 / 64) :: b64char (b3 % 64) :: base64Encode rest

/-- Standard base64 decoding (padding only at the very end). -/
def base64Decode : List Char → Option (List Nat)
  | c1 :: c2 :: c3 :: c4 :: rest =>
      if c3 = '=' ∧ c4 = '=' ∧ rest = [] then
        (b64val c1).bind fun v1 => (b64val c2).map fun v2 => [v1 * 4 + v2 / 16]
      else if c4 = '=' ∧ rest = [] then
        (b64val c1).bind fun v1 => (b64val c2).bind fun v2 =>
          (b64val c3).map fun v3 => [v1 * 4 + v2 / 16, v2 % 16 * 16 + v3 / 4]
      else
        (b64val c1).bind fun v1 => (b64val c2).bind fun v2 =>
          (b64val c3).bind fun v3 => (b64val c4).bind fun v4 =>
            (base64Decode rest).map fun tail =>
              (v1 * 4 + v2 / 16) :: (v2 % 16 * 16 + v3 / 4) :: (v3 % 4 * 64 + v4) :: tail
  | [] => some []
  | _ => none

/-- The JSON value built by src/watcher.rs `Watcher::generate_payload`:
`vec![SpadeEvent { event: "minute-watched", properties: SpadeProperties
{ … } }]` under derived `Serialize` (fields in declaration order). -/
def spadeEventJson (auth : AuthState) (target : WatchTarget) : Json :=
  Json.arr [Json.obj [
    ("event", Json.str "minute-watched"),
    ("properties", Json.obj [
      ("broadcast_id", Json.str target.broadcast_id),
      ("channel_id", Json.str target.channel_id),
      ("channel", Json.str target.channel_login),
      ("hidden", Json.bool false),
      ("live", Json.bool true),
      ("location", Json.str "channel"),
      ("logged_in", Json.bool true),
      ("muted", Json.bool false),
      ("player", Json.str "site"),
      ("user_id", Json.natNum auth.user_id)])]]

/-- src/watcher.rs `Watcher::generate_payload`: JSON-encode the
single-element event array, then base64-encode its UTF-8 bytes. -/
def generate_payload (auth : AuthState) (target : WatchTarget) : String :=
  ⟨base64Encode (stringToBytes (serializeJson (spadeEventJson auth target)))⟩

/-- A shadow of IEEE-754 `f64` for the drop-progress arithmetic: the
special values are explicit, finite values carry their exact rational
magnitude.  Rounding is not represented — it never affects NaN-ness, and
overflow to infinity is modelled by the threshold `maxF`.  This type
exists to settle the NaN/panic question of claim C10 honestly; all other
claims use the exact `ℚ` embedding. -/
inductive FVal where
  | nan
  | inf
  | ninf
  | finite (q : ℚ)
  deriving DecidableEq, Repr

namespace FVal

/-- The `f64` overflow threshold, `2^1024`: a result of larger exact
magnitude overflows to an infinity.  (Marked irreducible so that proofs
never evaluate the numeral by unfolding.) -/
@[irreducible] def maxF : ℚ := 2 ^ 1024

/-- Shadow `f64` addition: NaN propagates, `∞ + (−∞)` is NaN,
finite sums overflow past `maxF`. -/
def add : FVal → FVal → FVal
  | nan, _ => nan
  | _, nan => nan
  | inf, ninf => nan
  | ninf, inf => nan
  | inf, _ => inf
  | _, inf => inf
  | ninf, _ => ninf
  | _, ninf => ninf
  | finite a, finite b =>
      if maxF < |a + b| then (if 0 < a + b then inf else ninf) else finite (a + b)

/-- Shadow `f64` negation. -/
def neg : FVal → FVal
  | nan => nan
  | inf => ninf
  | ninf => inf
  | finite a => finite (-a)

/-- Shadow `f64` subtraction (addition of the negation). -/
def sub (x y : FVal) : FVal := x.add y.neg

/-- Division by the positive constant `60.0`: never creates NaN and never
overflows. -/
def div60 : FVal → FVal
  | nan => nan
  | inf => inf
  | ninf => ninf
  | finite a => finite (a / 60)

/-- The `<=` of `f64` restricted to the shadow (false whenever either side
is NaN). -/
def fle : FVal → FVal → Bool
  | nan, _ => false
  | _, nan => false
  | ninf, _ => true
  | _, inf => true
  | inf, _ => false
  | _, ninf => false
  | finite a, finite b => decide (a ≤ b)

/-- Rust `f64::max`: ignores a NaN argument, otherwise the greater
value. -/
def fmaxRust : FVal → FVal → FVal
  | nan, b => b
  | a, nan => a
  | a, b => if fle a b then b else a

/-- Model of `PartialOrd::partial_cmp` on `f64`: `none` exactly when a NaN is
involved. -/
def partialCmp (a b : FVal) : Option Ordering :=
  match a, b with
  | nan, _ => none
  | _, nan => none
  | a, b => if a = b then some .eq else if fle a b then some .lt else some .gt

end FVal

/-- Shadow of `TimedDrop::current_minutes` computed in the `f64` shadow (both `i32`
casts to `f64` are exact, hence finite). -/
def TimedDrop.current_minutesF (d : TimedDrop) : FVal :=
  ((FVal.finite (d.server_minutes : ℚ)).add
    (FVal.finite (d.extra_minutes : ℚ))).add
      ((FVal.finite (d.extra_seconds : ℚ)).div60)

/-- Shadow of `TimedDrop::remaining_minutes`:
`(required - current).max(0.0)`. -/
def TimedDrop.remaining_minutesF (d : TimedDrop) : FVal :=
  ((FVal.finite (d.required_minutes : ℚ)).sub d.current_minutesF).fmaxRust
    (FVal.finite 0)

/-- Shadow of `TimedDrop::is_claimed` (`current >= required` is
false when `current` is NaN, as in `f64`). -/
def TimedDrop.is_claimedF (d : TimedDrop) : Bool :=
  (d.self_info.map DropSelfInfo.is_claimed).getD false
    || (decide (0 < d.required_minutes)
        && FVal.fle (FVal.finite (d.required_minutes : ℚ)) d.current_minutesF)

/-- The `min_by` fold of `first_unclaimed_drop` with the
`partial_cmp(..).unwrap()` panic modelled as `none`. -/
def minByAuxF (acc : TimedDrop) : List TimedDrop → Option TimedDrop
  | [] => some acc
  | y :: ys =>
      match FVal.partialCmp acc.remaining_minutesF y.remaining_minutesF with
      | none => none
      | some ord => minByAuxF (if ord = .gt then y else acc) ys

/-- Shadow of `DropsCampaign::first_unclaimed_drop`; the outer
`none` is the panic of the unwrapped comparison. -/
def first_unclaimed_dropF (c : DropsCampaign) : Option (Option TimedDrop) :=
  match c.time_based_drops.filter (fun d => !d.is_claimedF) with
  | [] => some none
  | d :: ds => (minByAuxF d ds).map some

/-- The integer fields of a drop fit in `i32` (claim C10's hypothesis that
all the numeric inputs are `i32`-valued). -/
def dropBounded (d : TimedDrop) : Prop :=
  d.required_minutes.natAbs ≤ 2 ^ 31 ∧ d.server_minutes.natAbs ≤ 2 ^ 31 ∧
    d.extra_minutes.natAbs ≤ 2 ^ 31 ∧ d.extra_seconds.natAbs ≤ 2 ^ 31

instance (d : TimedDrop) : Decidable (dropBounded d) := by
  unfold dropBounded; infer_instance

/-- A campaign with two unclaimed drops of distinct remaining minutes. -/
def dropC10a : TimedDrop :=
  { id := "d10a", name := "Drop 10a", required_minutes := 60,
    self_info := some { current_minutes_watched := 10, is_claimed := false,
                        drop_instance_id := none },
    extra_minutes := 0, extra_seconds := 0 }

/-- The drop with the smaller remaining time. -/
def dropC10b : TimedDrop :=
  { id := "d10b", name := "Drop 10b", required_minutes := 30,
    self_info := some { current_minutes_watched := 10, is_claimed := false,
                        drop_instance_id := none },
    extra_minutes := 0, extra_seconds := 0 }

/-- The C10 witness campaign. -/
def campaignC10 : DropsCampaign :=
  { id := "c10", name := "Camp 10",
    game := { id := "g10", display_name := "GameD", slug := none },
    starts_at := 0, ends_at := 1000, status := "ACTIVE",
    time_based_drops := [dropC10a, dropC10b] }

-- ===========================================================================
-- Theorems
-- ===========================================================================

lemma updateFirst_length {α : Type} (p : α → Bool) (f : α → α) :
    ∀ l : List α, (updateFirst p f l).length = l.length := by
  intro l
  induction l with
  | nil => rfl
  | cons x xs ih =>
      simp only [updateFirst]
      split_ifs <;> simp [ih]

lemma forall₂_map_self {α : Type} {r : α → α → Prop} {f : α → α} :
    ∀ l : List α, (∀ x ∈ l, r x (f x)) → List.Forall₂ r l (l.map f) := by
  intro l
  induction l with
  | nil => intro _; exact List.Forall₂.nil
  | cons x xs ih =>
      intro h
      exact List.Forall₂.cons (h x (by simp)) (ih fun y hy => h y (by simp [hy]))

lemma forall₂_updateFirst {α : Type} {r : α → α → Prop} {p : α → Bool} {f : α → α} :
    ∀ l : List α, (∀ x ∈ l, r x x) → (∀ x ∈ l, p x = true → r x (f x)) →
      List.Forall₂ r l (updateFirst p f l) := by
  intro l
  induction l with
  | nil => intro _ _; exact List.Forall₂.nil
  | cons x xs ih =>
      intro hr hf
      simp only [updateFirst]
      split_ifs with h
      · exact List.Forall₂.cons (hf x (by simp) h)
          (List.forall₂_same.mpr fun y hy => hr y (by simp [hy]))
      · exact List.Forall₂.cons (hr x (by simp))
          (ih (fun y hy => hr y (by simp [hy])) (fun y hy hp => hf y (by simp [hy]) hp))

lemma updateFirst_idem {α : Type} {p : α → Bool} {f : α → α}
    (hp : ∀ x, p (f x) = p x) (hf : ∀ x, p x = true → f (f x) = f x) :
    ∀ l : List α, updateFirst p f (updateFirst p f l) = updateFirst p f l := by
  intro l
  induction l with
  | nil => rfl
  | cons x xs ih =>
      by_cases h : p x = true
      · simp only [updateFirst, h, if_pos, hp, hf x h]
      · simp [updateFirst, h, ih]

lemma find?_updateFirst {α : Type} {p : α → Bool} {f : α → α}
    (hp : ∀ x, p (f x) = p x) :
    ∀ l : List α, (updateFirst p f l).find? p = (l.find? p).map f := by
  intro l
  induction l with
  | nil => rfl
  | cons x xs ih =>
      by_cases h : p x = true
      · simp [updateFirst, h, hp]
      · simp [updateFirst, h, ih]

lemma updateFirst_getElem?_of_positionIdx {α : Type} {p : α → Bool} (f : α → α) :
    ∀ (l : List α) (i : Nat), positionIdx p l = some i →
      (updateFirst p f l)[i]? = (l[i]?).map f := by
  intro l
  induction l with
  | nil => intro i h; simp [positionIdx] at h
  | cons x xs ih =>
      intro i h
      simp only [positionIdx] at h
      split_ifs at h with hpx
      · simp only [Option.some.injEq] at h
        subst h
        simp [updateFirst, hpx]
      · cases hpos : positionIdx p xs with
        | none => rw [hpos] at h; simp at h
        | some j =>
            rw [hpos] at h
            simp at h
            subst h
            simp [updateFirst, hpx, ih j hpos]

lemma modifyAt_getElem?_self {α : Type} (f : α → α) :
    ∀ (l : List α) (i : Nat), (modifyAt i f l)[i]? = (l[i]?).map f := by
  intro l
  induction l with
  | nil => intro i; simp [modifyAt]
  | cons x xs ih =>
      intro i
      cases i with
      | zero => simp [modifyAt]
      | succ n => simp [modifyAt, ih]

lemma extraInvariant_applyLocalOp {d : TimedDrop} (h : extraInvariant d)
    (op : LocalOp) : extraInvariant (applyLocalOp d op) := by
  obtain ⟨h1, h2, h3, h4⟩ := h
  have h2' : d.extra_minutes ≤ 15 := h2
  cases op with
  | bumpMinute =>
      simp only [applyLocalOp, TimedDrop.bump_extra_minute]
      split_ifs with hlt
      · have hlt' : d.extra_minutes < 15 := hlt
        exact ⟨show (0 : Int) ≤ d.extra_minutes + 1 by omega,
          show d.extra_minutes + 1 ≤ (15 : Int) by omega, h3, h4⟩
      · exact ⟨h1, h2, h3, h4⟩
  | bumpSecond =>
      simp only [applyLocalOp, TimedDrop.bump_extra_second]
      split_ifs with hlt hs
      · have hlt' : d.extra_minutes < 15 := hlt
        exact ⟨show (0 : Int) ≤ d.extra_minutes + 1 by omega,
          show d.extra_minutes + 1 ≤ (15 : Int) by omega,
          le_refl 0, show (0 : Int) < 60 by omega⟩
      · have hs' : ¬ (60 : Int) ≤ d.extra_seconds + 1 := hs
        exact ⟨h1, h2, show (0 : Int) ≤ d.extra_seconds + 1 by omega,
          show d.extra_seconds + 1 < (60 : Int) by omega⟩
      · exact ⟨h1, h2, h3, h4⟩
  | reset =>
      exact ⟨le_refl 0, show (0 : Int) ≤ 15 by omega, le_refl 0,
        show (0 : Int) < 60 by omega⟩

/-- C3: starting from zeroed extra counters, every sequence of
`bump_extra_minute` / `bump_extra_second` / `reset_local_tracking` calls
keeps `extra_minutes ≤ MAX_EXTRA_MINUTES (= 15)` and
`0 ≤ extra_seconds < 60`; and once `extra_minutes` has reached
`MAX_EXTRA_MINUTES`, both bump operations leave the drop unchanged. -/
theorem claim_C3_extra_counter_invariant (d : TimedDrop) (ops : List LocalOp)
    (hm : d.extra_minutes = 0) (hs : d.extra_seconds = 0) :
    extraInvariant (ops.foldl applyLocalOp d) ∧
      (∀ e : TimedDrop, e.extra_minutes = MAX_EXTRA_MINUTES →
        e.bump_extra_minute = e ∧ e.bump_extra_second = e) := by
  constructor
  · have h0 : extraInvariant d := by
      refine ⟨by omega, ?_, by omega, by omega⟩
      rw [hm]; norm_num [MAX_EXTRA_MINUTES]
    clear hm hs
    induction ops generalizing d with
    | nil => exact h0
    | cons op ops ih =>
        exact ih _ (extraInvariant_applyLocalOp h0 op)
  · intro e he
    constructor
    · simp [TimedDrop.bump_extra_minute, he]
    · simp [TimedDrop.bump_extra_second, he]

/-- Witness for C3 at a concrete drop and operation sequence. -/
lemma setDropClaimed_name (d : TimedDrop) : (App.setDropClaimed d).name = d.name := by
  cases h : d.self_info <;> simp [App.setDropClaimed, h]

lemma setDropClaimed_idem (d : TimedDrop) :
    App.setDropClaimed (App.setDropClaimed d) = App.setDropClaimed d := by
  cases h : d.self_info <;> simp [App.setDropClaimed, h]

lemma setDropClaimed_is_claimed (d : TimedDrop) :
    (App.setDropClaimed d).self_info.map DropSelfInfo.is_claimed = some true := by
  cases h : d.self_info <;> simp [App.setDropClaimed, h]

lemma setDropClaimed_server_minutes (d : TimedDrop) (h : 0 ≤ d.required_minutes) :
    d.server_minutes ≤ (App.setDropClaimed d).server_minutes := by
  cases hsi : d.self_info <;>
    simp [App.setDropClaimed, TimedDrop.server_minutes, hsi, h]

lemma claimDropInCampaign_game (g dn : String) (c : DropsCampaign) :
    (App.claimDropInCampaign g dn c).game = c.game := by
  unfold App.claimDropInCampaign
  split_ifs <;> rfl

lemma claimDropInCampaign_idem (g dn : String) (c : DropsCampaign) :
    App.claimDropInCampaign g dn (App.claimDropInCampaign g dn c)
      = App.claimDropInCampaign g dn c := by
  by_cases h : (c.game.display_name == g) = true
  · simp only [App.claimDropInCampaign, h, if_pos]
    rw [updateFirst_idem (fun d => by simp [setDropClaimed_name])
      (fun d _ => setDropClaimed_idem d)]
  · simp [App.claimDropInCampaign, h]

lemma claimDropInCampaign_forall₂ (g dn : String) (c : DropsCampaign)
    (hreq : ∀ d ∈ c.time_based_drops, 0 ≤ d.required_minutes) :
    List.Forall₂ (fun d d' => d.server_minutes ≤ d'.server_minutes)
      c.time_based_drops (App.claimDropInCampaign g dn c).time_based_drops := by
  by_cases h : (c.game.display_name == g) = true
  · simp only [App.claimDropInCampaign, h, if_pos]
    exact forall₂_updateFirst _ (fun d _ => le_refl _)
      (fun d hd _ => setDropClaimed_server_minutes d (hreq d hd))
  · simp only [App.claimDropInCampaign]
    rw [if_neg h]
    exact List.forall₂_same.mpr fun d _ => le_refl _

/-- C7: `mark_drop_claimed(game, drop)` is idempotent; afterwards, in every
campaign of the matching game (in either list) the first drop of the
matching name — the drop the operation matches — carries
`self_info.is_claimed = true`; and (for drops with non-negative
`required_minutes`, as the server delivers them) no drop's server-side
`current_minutes_watched` is decreased, position by position. -/
theorem claim_C7_mark_drop_claimed (a : App) (g dn : String)
    (hreq : ∀ c ∈ a.all_campaigns ++ a.campaigns, ∀ d ∈ c.time_based_drops,
      0 ≤ d.required_minutes) :
    App.mark_drop_claimed (App.mark_drop_claimed a g dn) g dn
        = App.mark_drop_claimed a g dn ∧
    (∀ c' ∈ (App.mark_drop_claimed a g dn).all_campaigns
          ++ (App.mark_drop_claimed a g dn).campaigns,
      c'.game.display_name = g → ∀ d',
        c'.time_based_drops.find? (fun d => d.name == dn) = some d' →
        d'.self_info.map DropSelfInfo.is_claimed = some true) ∧
    List.Forall₂
      (fun c c' => List.Forall₂ (fun d d' => d.server_minutes ≤ d'.server_minutes)
        c.time_based_drops c'.time_based_drops)
      a.all_campaigns (App.mark_drop_claimed a g dn).all_campaigns ∧
    List.Forall₂
      (fun c c' => List.Forall₂ (fun d d' => d.server_minutes ≤ d'.server_minutes)
        c.time_based_drops c'.time_based_drops)
      a.campaigns (App.mark_drop_claimed a g dn).campaigns := by
  have hmapidem : ∀ l : List DropsCampaign,
      (l.map (App.claimDropInCampaign g dn)).map (App.claimDropInCampaign g dn)
        = l.map (App.claimDropInCampaign g dn) := by
    intro l
    rw [List.map_map]
    exact List.map_congr_left fun c _ => claimDropInCampaign_idem g dn c
  refine ⟨?_, ?_, ?_, ?_⟩
  · simp only [App.mark_drop_claimed]
    rw [hmapidem, hmapidem]
  · intro c' hc' hdisp d' hfind
    have hstep : ∀ c : DropsCampaign, c' = App.claimDropInCampaign g dn c →
        d'.self_info.map DropSelfInfo.is_claimed = some true := by
      intro c hc
      subst hc
      have hg : (c.game.display_name == g) = true := by
        have := claimDropInCampaign_game g dn c
        rw [← this]
        simpa using hdisp
      rw [App.claimDropInCampaign, if_pos hg] at hfind
      rw [find?_updateFirst (fun d => by simp [setDropClaimed_name])] at hfind
      cases hfo : c.time_based_drops.find? (fun d => d.name == dn) with
      | none => rw [hfo] at hfind; simp at hfind
      | some d0 =>
          rw [hfo] at hfind
          simp at hfind
          exact hfind ▸ setDropClaimed_is_claimed d0
    rcases List.mem_append.mp hc' with hmem | hmem
    · obtain ⟨c, _, hc⟩ := List.mem_map.mp hmem
      exact hstep c hc.symm
    · obtain ⟨c, _, hc⟩ := List.mem_map.mp hmem
      exact hstep c hc.symm
  · exact forall₂_map_self _ fun c hc =>
      claimDropInCampaign_forall₂ g dn c
        (hreq c (List.mem_append_left _ hc))
  · exact forall₂_map_self _ fun c hc =>
      claimDropInCampaign_forall₂ g dn c
        (hreq c (List.mem_append_right _ hc))

/-- Witness for C7 at a concrete scheduler state. -/
theorem claim_C7_mark_drop_claimed_witness :
    (∀ c ∈ appC7.all_campaigns ++ appC7.campaigns, ∀ d ∈ c.time_based_drops,
      0 ≤ d.required_minutes) ∧
    App.mark_drop_claimed (App.mark_drop_claimed appC7 "GameA" "DropX") "GameA" "DropX"
      = App.mark_drop_claimed appC7 "GameA" "DropX" :=
  ⟨by decide, (claim_C7_mark_drop_claimed appC7 "GameA" "DropX" (by decide)).1⟩

/-- C6: a `TransientError` event increments `transient_error_count`
(modulo the `u32` width); when the incremented count reaches 10 the loop
is stopped via `stop_watching` with the counter cleared, below 10 the only
state change is the counter; the event never records a game in
`failed_game_attempts`. -/
theorem claim_C6_transient_error (now : ℚ) (a : App) (msg : String) :
    (App.handle_worker_event now a (.transientError msg)).failed_game_attempts
        = a.failed_game_attempts ∧
    (10 ≤ (a.transient_error_count + 1) % 2 ^ 32 →
      App.handle_worker_event now a (.transientError msg) =
        App.stop_watching { a with transient_error_count := 0 }) ∧
    ((a.transient_error_count + 1) % 2 ^ 32 < 10 →
      App.handle_worker_event now a (.transientError msg) =
        { a with transient_error_count := (a.transient_error_count + 1) % 2 ^ 32 }) := by
  refine ⟨?_, fun h => ?_, fun h => ?_⟩
  · simp only [App.handle_worker_event]
    split_ifs with h
    · simp [App.stop_watching]
    · rfl
  · simp only [App.handle_worker_event]
    rw [if_pos h]
  · simp only [App.handle_worker_event]
    rw [if_neg (by omega)]

/-- Witness for C6: the tenth consecutive transient error stops the watch. -/
theorem claim_C6_transient_error_witness :
    App.handle_worker_event 0 { App.init_default with transient_error_count := 9 }
        (.transientError "net") =
      App.stop_watching
        { { App.init_default with transient_error_count := 9 } with
          transient_error_count := 0 } :=
  (claim_C6_transient_error 0
    { App.init_default with transient_error_count := 9 } "net").2.1 (by decide)

/-- C4 counterexample: with "GameA" in the priority list, an eligible
"GameA" campaign, and the scheduler mining "GameB", the 1-second bump
leaves the "GameA" campaign (and its first unclaimed drop's extra-seconds)
unchanged — contradicting "increments … of every campaign belonging to a
game in the priority list, regardless of which game is currently being
watched". -/
theorem claim_C4_counterexample :
    "GameA" ∈ appC4.priority_games ∧
    (App.bump_active_drop_second appC4).all_campaigns = [campaignC4] ∧
    campaignC4.time_based_drops.map TimedDrop.extra_seconds = [0] := by
  refine ⟨by decide, ?_, by decide⟩
  simp [App.bump_active_drop_second, App.active_game, appC4, App.bumpCampaignIfGame,
    campaignC4]

/-- C4 (amended): the 1-second bump touches only campaigns of the active
game — the mining status's game when mining, otherwise
`current_attempt_game` — bumping the extra-seconds of the first unclaimed
drop of each such campaign in both lists, and does nothing when neither is
set. -/
theorem claim_C4_amended_bump_active_game (a : App) :
    (App.active_game a = none → App.bump_active_drop_second a = a) ∧
    ∀ g, App.active_game a = some g →
      List.Forall₂ (fun c c' =>
          (¬ c.game.display_name = g → c' = c) ∧
          (c.game.display_name = g → c' = App.bumpFirstUnclaimed c))
        a.all_campaigns (App.bump_active_drop_second a).all_campaigns ∧
      List.Forall₂ (fun c c' =>
          (¬ c.game.display_name = g → c' = c) ∧
          (c.game.display_name = g → c' = App.bumpFirstUnclaimed c))
        a.campaigns (App.bump_active_drop_second a).campaigns := by
  constructor
  · intro h
    simp [App.bump_active_drop_second, h]
  · intro g hg
    simp only [App.bump_active_drop_second, hg]
    constructor
    · exact forall₂_map_self _ fun c _ =>
        ⟨fun hne => by simp [App.bumpCampaignIfGame, hne],
         fun he => by simp [App.bumpCampaignIfGame, he]⟩
    · exact forall₂_map_self _ fun c _ =>
        ⟨fun hne => by simp [App.bumpCampaignIfGame, hne],
         fun he => by simp [App.bumpCampaignIfGame, he]⟩

/-- Witness for C4 (amended): in `appC4` the active game is "GameB". -/
theorem claim_C4_amended_bump_active_game_witness :
    List.Forall₂ (fun c c' =>
        (¬ c.game.display_name = "GameB" → c' = c) ∧
        (c.game.display_name = "GameB" → c' = App.bumpFirstUnclaimed c))
      appC4.all_campaigns (App.bump_active_drop_second appC4).all_campaigns :=
  (((claim_C4_amended_bump_active_game appC4).2) "GameB" rfl).1

lemma reconcileDrop_cmw (mw : Int) (d : TimedDrop) :
    (App.reconcileDrop mw d).self_info.map DropSelfInfo.current_minutes_watched
      = some mw := by
  cases hsi : d.self_info <;>
    simp only [App.reconcileDrop, hsi] <;>
    split_ifs <;> simp

lemma reconcileDrop_extras_reset (mw : Int) (d : TimedDrop)
    (h : d.current_minutes ≤ (mw : ℚ)) :
    (App.reconcileDrop mw d).extra_minutes = 0 ∧
      (App.reconcileDrop mw d).extra_seconds = 0 := by
  cases hsi : d.self_info <;>
    simp only [App.reconcileDrop, hsi] <;>
    rw [if_pos h] <;> exact ⟨rfl, rfl⟩

lemma reconcileDrop_extras_kept (mw : Int) (d : TimedDrop)
    (h : (mw : ℚ) < d.current_minutes) :
    (App.reconcileDrop mw d).extra_minutes = d.extra_minutes ∧
      (App.reconcileDrop mw d).extra_seconds = d.extra_seconds := by
  cases hsi : d.self_info <;>
    simp only [App.reconcileDrop, hsi] <;>
    rw [if_neg (not_le.mpr h)] <;> exact ⟨rfl, rfl⟩

/-- C1: handling `Status(s)` sets the matched drop's
`current_minutes_watched` to `s.minutes_watched`, and resets the extra
counters exactly when `s.minutes_watched` is at least the drop's
`current_minutes` computed before the update — otherwise both extra
counters keep their previous values.  The matched drop lives at index `di`
(per `statusDropIdx`) inside the first campaign of the status's game. -/
theorem claim_C1_status_reconciliation (now : ℚ) (a : App) (st : MiningStatus)
    (ci di : Nat) (c : DropsCampaign) (d : TimedDrop)
    (hci : positionIdx (fun x => x.game.display_name == st.game_name)
      a.all_campaigns = some ci)
    (hc : a.all_campaigns[ci]? = some c)
    (hdi : App.statusDropIdx c.time_based_drops st.drop_name = some di)
    (hd : c.time_based_drops[di]? = some d) :
    ∃ c' d',
      (App.handle_worker_event now a (.status st)).all_campaigns[ci]? = some c' ∧
      c'.time_based_drops[di]? = some d' ∧
      d'.self_info.map DropSelfInfo.current_minutes_watched
        = some st.minutes_watched ∧
      (d.current_minutes ≤ (st.minutes_watched : ℚ) →
        d'.extra_minutes = 0 ∧ d'.extra_seconds = 0) ∧
      ((st.minutes_watched : ℚ) < d.current_minutes →
        d'.extra_minutes = d.extra_minutes ∧ d'.extra_seconds = d.extra_seconds) := by
  have hall : (App.handle_worker_event now a (.status st)).all_campaigns
      = updateFirst (fun x => x.game.display_name == st.game_name)
          (App.applyStatusToCampaign st) a.all_campaigns := rfl
  refine ⟨App.applyStatusToCampaign st c, App.reconcileDrop st.minutes_watched d,
    ?_, ?_, reconcileDrop_cmw _ _,
    reconcileDrop_extras_reset _ _, reconcileDrop_extras_kept _ _⟩
  · rw [hall, updateFirst_getElem?_of_positionIdx _ _ _ hci, hc]
    rfl
  · rw [App.applyStatusToCampaign, hdi]
    simp only
    rw [modifyAt_getElem?_self, hd]
    rfl

/-- Witness for C1: a probe of 45 server minutes against local 41.5
resets the extra counters. -/
theorem claim_C1_status_reconciliation_witness :
    ∃ c' d',
      (App.handle_worker_event 0 appC1 (.status stC1)).all_campaigns[0]? = some c' ∧
      c'.time_based_drops[0]? = some d' ∧
      d'.self_info.map DropSelfInfo.current_minutes_watched
        = some stC1.minutes_watched ∧
      (dropC1.current_minutes ≤ (stC1.minutes_watched : ℚ) →
        d'.extra_minutes = 0 ∧ d'.extra_seconds = 0) ∧
      ((stC1.minutes_watched : ℚ) < dropC1.current_minutes →
        d'.extra_minutes = dropC1.extra_minutes ∧
          d'.extra_seconds = dropC1.extra_seconds) :=
  claim_C1_status_reconciliation 0 appC1 stC1 0 0 campaignC1 dropC1
    (by norm_num [positionIdx, appC1, campaignC1, stC1])
    (by norm_num [appC1])
    (by norm_num [App.statusDropIdx, positionIdx, campaignC1, dropC1, stC1,
      TimedDrop.is_claimed, TimedDrop.current_minutes])
    (by norm_num [campaignC1])

theorem claim_C3_extra_counter_invariant_witness :
    extraInvariant
      (([LocalOp.bumpSecond, .bumpSecond, .bumpMinute, .reset,
         .bumpSecond].foldl applyLocalOp
        { id := "d1", name := "Drop 1", required_minutes := 60,
          self_info := none, extra_minutes := 0, extra_seconds := 0 })) := by
  have h := claim_C3_extra_counter_invariant
    { id := "d1", name := "Drop 1", required_minutes := 60,
      self_info := none, extra_minutes := 0, extra_seconds := 0 }
    [LocalOp.bumpSecond, .bumpSecond, .bumpMinute, .reset, .bumpSecond]
    rfl rfl
  exact h.1

/-- C2 counterexample: the extra counters are carried forward only inside
a campaign of the same id.  Drop "d1" is present in both the old snapshot
(inside campaign "A", extras 5 min 7 s) and the new snapshot (inside the
fresh campaign "B"), yet the new snapshot holds extras 0/0. -/
theorem claim_C2_counterexample :
    findDropExtras [campaignC2old] "d1" = some (5, 7) ∧
    findDropExtras (merge_all_campaigns [campaignC2old] [campaignC2newB]) "d1"
      = some (0, 0) := by
  constructor <;> rfl

/-- C2 (amended): on a refresh of `all_campaigns`, for every campaign id
present in both snapshots (located by first match), every drop id present
in that campaign in both snapshots keeps the old snapshot's
`extra_minutes`/`extra_seconds` (all other fields come from the incoming
parse); campaigns with a fresh id, and drops with no old counterpart in
the id-matched campaign, keep their parsed values. -/
theorem claim_C2_amended_merge_preserves_extras
    (old incoming : List DropsCampaign) (i : Nat) (c : DropsCampaign)
    (hc : incoming[i]? = some c) :
    (old.find? (fun oc => oc.id == c.id) = none →
      (merge_all_campaigns old incoming)[i]? = some c) ∧
    ∀ oc, old.find? (fun oc => oc.id == c.id) = some oc →
      ∃ c', (merge_all_campaigns old incoming)[i]? = some c' ∧
        ∀ (j : Nat) (d : TimedDrop), c.time_based_drops[j]? = some d →
          (oc.time_based_drops.find? (fun od => od.id == d.id) = none →
            c'.time_based_drops[j]? = some d) ∧
          ∀ od, oc.time_based_drops.find? (fun od => od.id == d.id) = some od →
            c'.time_based_drops[j]? = some
              { d with extra_minutes := od.extra_minutes,
                       extra_seconds := od.extra_seconds } := by
  constructor
  · intro hnone
    simp [merge_all_campaigns, hc, mergeCampaign, hnone]
  · intro oc hoc
    refine ⟨mergeCampaign old c, by simp [merge_all_campaigns, hc], ?_⟩
    intro j d hd
    constructor
    · intro hnone
      simp [mergeCampaign, hoc, hd, mergeDrop, hnone]
    · intro od hod
      simp [mergeCampaign, hoc, hd, mergeDrop, hod]

/-- Witness for the amended C2: with matching campaign ids, the extras are
carried forward. -/
theorem claim_C2_amended_merge_preserves_extras_witness :
    ∃ c', (merge_all_campaigns [campaignC2old] [campaignC2newA])[0]? = some c' ∧
      ∀ (j : Nat) (d : TimedDrop), campaignC2newA.time_based_drops[j]? = some d →
        (campaignC2old.time_based_drops.find? (fun od => od.id == d.id) = none →
          c'.time_based_drops[j]? = some d) ∧
        ∀ od, campaignC2old.time_based_drops.find? (fun od => od.id == d.id)
            = some od →
          c'.time_based_drops[j]? = some
            { d with extra_minutes := od.extra_minutes,
                     extra_seconds := od.extra_seconds } :=
  (claim_C2_amended_merge_preserves_extras [campaignC2old] [campaignC2newA]
    0 campaignC2newA rfl).2 campaignC2old rfl

lemma lookup_mem {g : String} {v : ℚ} :
    ∀ {m : List (String × ℚ)}, m.lookup g = some v → (g, v) ∈ m := by
  intro m
  induction m with
  | nil => intro h; simp [List.lookup] at h
  | cons p rest ih =>
      intro h
      obtain ⟨k, w⟩ := p
      by_cases hk : (g == k) = true
      · simp only [List.lookup, hk] at h
        simp only [Option.some.injEq] at h
        subst h
        simp [(by simpa using hk : g = k)]
      · have hk' : (g == k) = false := by simpa using hk
        simp only [List.lookup, hk'] at h
        exact List.mem_cons_of_mem _ (ih h)

lemma mem_lookup_isSome {g : String} {t : ℚ} :
    ∀ {m : List (String × ℚ)}, (g, t) ∈ m → ∃ v, m.lookup g = some v := by
  intro m
  induction m with
  | nil => intro h; simp at h
  | cons p rest ih =>
      intro h
      obtain ⟨k, w⟩ := p
      by_cases hk : (g == k) = true
      · exact ⟨w, by simp [List.lookup, hk]⟩
      · have hk' : (g == k) = false := by simpa using hk
        rcases List.mem_cons.mp h with heq | hmem
        · rw [Prod.ext_iff] at heq
          have hgk : g = k := heq.1
          exact absurd (by simp [hgk]) hk
        · obtain ⟨v, hv⟩ := ih hmem
          exact ⟨v, by simp [List.lookup, hk', hv]⟩

lemma filter_lookup_none {g : String} {keep : String × ℚ → Bool} :
    ∀ {m : List (String × ℚ)}, (∀ t : ℚ, (g, t) ∈ m → keep (g, t) = false) →
      (m.filter keep).lookup g = none := by
  intro m
  induction m with
  | nil => intro _; rfl
  | cons p rest ih =>
      intro h
      obtain ⟨k, w⟩ := p
      by_cases hkeep : keep (k, w) = true
      · rw [List.filter_cons_of_pos hkeep]
        by_cases hk : (g == k) = true
        · have hkg : g = k := by simpa using hk
          subst hkg
          exact absurd hkeep (by simp [h w (by simp)])
        · have hk' : (g == k) = false := by simpa using hk
          simp only [List.lookup, hk']
          exact ih fun t ht => h t (List.mem_cons_of_mem _ ht)
      · rw [List.filter_cons_of_neg (by simpa using hkeep)]
        exact ih fun t ht => h t (List.mem_cons_of_mem _ ht)

lemma autostartLoop_not_on_cooldown {wall_now : Int} {mono_now : ℚ}
    {failed : List (String × ℚ)} {all_c inv_c : List DropsCampaign}
    {gql : Bool} {dir : String → List (Option StreamEdge)} :
    ∀ (gs : List String) (t : AutostartTarget),
      autostartLoop wall_now mono_now failed all_c inv_c gql dir gs = some t →
      onCooldown failed mono_now t.game = false := by
  intro gs
  induction gs with
  | nil => intro t h; simp [autostartLoop] at h
  | cons g gs ih =>
      intro t h
      simp only [autostartLoop] at h
      split_ifs at h with h1 h2 h3
      · exact ih t h
      · exact ih t h
      · exact ih t h
      · cases he : findValidEdge (dir (slugify g)) with
        | none => rw [he] at h; exact ih t h
        | some e =>
            obtain ⟨l, cid, bid⟩ := e
            rw [he] at h
            simp only [Option.some.injEq] at h
            subst h
            simpa using h1

lemma start_watching_state_failed (a : App) (login : String) :
    (App.start_watching_state a login).failed_game_attempts
      = a.failed_game_attempts := by
  unfold App.start_watching_state
  split_ifs <;> rfl

/-- C5: `try_autostart` (when it does not return early as "Already
watching") prunes exactly the cooldown entries 300 s old or older, never
selects a game that has a cooldown entry less than 300 s old, and after
the pruning a game all of whose failure entries are 300 s old or older is
no longer on cooldown — it becomes selectable again. -/
theorem claim_C5_autostart_cooldown (wall_now : Int) (mono_now : ℚ)
    (directory : String → List (Option StreamEdge)) (a : App) :
    ((App.try_autostart wall_now mono_now directory a).2 ≠ .alreadyWatching →
      ∀ (g : String) (t : ℚ),
        (g, t) ∈ (App.try_autostart wall_now mono_now directory a).1.failed_game_attempts
          ↔ ((g, t) ∈ a.failed_game_attempts ∧ elapsedSat mono_now t < 300)) ∧
    (∀ t', (App.try_autostart wall_now mono_now directory a).2 = .started t' →
      ∀ ts : ℚ, (t'.game, ts) ∈ a.failed_game_attempts →
        300 ≤ elapsedSat mono_now ts) ∧
    ((App.try_autostart wall_now mono_now directory a).2 ≠ .alreadyWatching →
      ∀ g : String,
        (∀ ts : ℚ, (g, ts) ∈ a.failed_game_attempts → 300 ≤ elapsedSat mono_now ts) →
        onCooldown
          (App.try_autostart wall_now mono_now directory a).1.failed_game_attempts
          mono_now g = false) := by
  by_cases hw : (a.mining_status.isSome || a.watcher_active) = true
  · have hr : App.try_autostart wall_now mono_now directory a = (a, .alreadyWatching) := by
      rw [App.try_autostart, if_pos hw]
    refine ⟨fun hne => absurd (by rw [hr]) hne, fun t' ht' => ?_,
      fun hne => absurd (by rw [hr]) hne⟩
    rw [hr] at ht'
    simp at ht'
  · have hw' : (a.mining_status.isSome || a.watcher_active) = false := by
      simpa using hw
    have hmemF : ∀ (g : String) (t : ℚ),
        (g, t) ∈ a.failed_game_attempts.filter
            (fun p => decide (elapsedSat mono_now p.2 < 300))
          ↔ ((g, t) ∈ a.failed_game_attempts ∧ elapsedSat mono_now t < 300) := by
      intro g t
      simp [List.mem_filter]
    have hcool : ∀ g : String,
        (∀ ts : ℚ, (g, ts) ∈ a.failed_game_attempts → 300 ≤ elapsedSat mono_now ts) →
        onCooldown
          (a.failed_game_attempts.filter
            (fun p => decide (elapsedSat mono_now p.2 < 300)))
          mono_now g = false := by
      intro g hg
      have hlk : (a.failed_game_attempts.filter
          (fun p => decide (elapsedSat mono_now p.2 < 300))).lookup g = none :=
        filter_lookup_none fun t ht => by
          simp only [decide_eq_false_iff_not, not_lt]
          exact hg t ht
      simp [onCooldown, hlk]
    cases hsel : autostartLoop wall_now mono_now
        (a.failed_game_attempts.filter
          (fun p => decide (elapsedSat mono_now p.2 < 300)))
        a.all_campaigns a.campaigns a.gql_present directory a.priority_games with
    | none =>
        have hr : App.try_autostart wall_now mono_now directory a =
            ({ a with failed_game_attempts := a.failed_game_attempts.filter (fun p => decide (elapsedSat mono_now p.2 < 300)) },
             .noSuitableStreams) := by
          rw [App.try_autostart, if_neg (by simp [hw'])]
          simp only [hsel]
        refine ⟨fun _ => ?_, fun t' ht' => ?_, fun _ g hg => ?_⟩
        · rw [hr]; exact hmemF
        · rw [hr] at ht'; simp at ht'
        · rw [hr]; exact hcool g hg
    | some t =>
        have hr : App.try_autostart wall_now mono_now directory a =
            (App.start_watching_state
              { a with
                failed_game_attempts := a.failed_game_attempts.filter (fun p => decide (elapsedSat mono_now p.2 < 300)),
                current_attempt_game := some t.game } t.login,
             .started t) := by
          rw [App.try_autostart, if_neg (by simp [hw'])]
          simp only [hsel]
        have hfail : (App.try_autostart wall_now mono_now directory a).1.failed_game_attempts
            = a.failed_game_attempts.filter
                (fun p => decide (elapsedSat mono_now p.2 < 300)) := by
          rw [hr, start_watching_state_failed]
        refine ⟨fun _ => ?_, fun t' ht' => ?_, fun _ g hg => ?_⟩
        · rw [hfail]; exact hmemF
        · rw [hr] at ht'
          simp only [Prod.snd, AutostartResult.started.injEq] at ht'
          subst ht'
          intro ts hts
          by_contra hlt
          push_neg at hlt
          have hmem : (t.game, ts) ∈ a.failed_game_attempts.filter
              (fun p => decide (elapsedSat mono_now p.2 < 300)) :=
            (hmemF t.game ts).mpr ⟨hts, hlt⟩
          obtain ⟨v, hv⟩ := mem_lookup_isSome hmem
          have hvmem := lookup_mem hv
          have hvlt : elapsedSat mono_now v < 300 := ((hmemF t.game v).mp hvmem).2
          have hnc := autostartLoop_not_on_cooldown _ t hsel
          rw [onCooldown, hv] at hnc
          simp at hnc
          exact absurd hvlt (by simpa using hnc)
        · rw [hfail]; exact hcool g hg

/-- Witness for C5: a "GameA" cooldown entry recorded 400 s ago is pruned
by the autostart pass. -/
theorem claim_C5_autostart_cooldown_witness :
    ("GameA", (0 : ℚ)) ∉
      (App.try_autostart 50 400 (fun _ => []) appC5).1.failed_game_attempts := by
  intro hmem
  have h := (claim_C5_autostart_cooldown 50 400 (fun _ => []) appC5).1
    (by simp [App.try_autostart, appC5, App.init_default, autostartLoop])
    "GameA" 0
  have h2 := (h.mp hmem).2
  norm_num [elapsedSat] at h2

lemma pollLoop_skip400 (responses : Nat → TokenPollResponse) (fuel start : Nat)
    (h400 : (responses start).status = 400) :
    pollLoop responses (fuel + 1) start = pollLoop responses fuel (start + 1) := by
  rw [pollLoop]
  rw [if_neg (by rw [h400]; omega), if_neg (by simp [h400])]

lemma pollLoop_reach (responses : Nat → TokenPollResponse) :
    ∀ (k fuel start : Nat), (∀ i, i < k → (responses (start + i)).status = 400) →
      k ≤ fuel →
      pollLoop responses fuel start = pollLoop responses (fuel - k) (start + k) := by
  intro k
  induction k with
  | zero => intro fuel start _ _; rfl
  | succ n ih =>
      intro fuel start h400 hk
      obtain ⟨fuel', rfl⟩ : ∃ f, fuel = f + 1 := ⟨fuel - 1, by omega⟩
      rw [pollLoop_skip400 responses fuel' start (by simpa using h400 0 (by omega))]
      rw [ih fuel' (start + 1) (fun i hi => by
        have := h400 (i + 1) (by omega)
        simpa [Nat.add_assoc, Nat.add_comm 1 i] using this) (by omega)]
      congr 1
      · omega
      · omega

/-- C9 counterexample: the code treats every 2xx status as success
(`is_success()`), so a 201 response with a parsable body yields the access
token instead of terminating the login attempt with an error as the claim
("any other non-200 status terminates…") requires. -/
theorem claim_C9_counterexample :
    poll_for_token responses201 5 1800 = PollOutcome.ok "tok" ∧
    poll_for_token responses201 5 1800 ≠ PollOutcome.protocolError 201 := by
  exact ⟨rfl, by intro h; rw [show poll_for_token responses201 5 1800 = PollOutcome.ok "tok" from rfl] at h; simp at h⟩

/-- C9 (amended): polling runs at most `expires_in / interval` attempts;
while every response is HTTP 400 polling continues, and if all attempts
are 400 the flow fails as device-code-expired; at the first non-400
response, a 2xx status yields the parsed access token (or a parse error
when the body does not parse), and any non-2xx status terminates with the
protocol error. -/
theorem claim_C9_amended_polling (responses : Nat → TokenPollResponse)
    (interval expires_in : Nat) :
    ((∀ i, i < expires_in / interval → (responses i).status = 400) →
      poll_for_token responses interval expires_in = PollOutcome.expired) ∧
    ∀ k, k < expires_in / interval →
      (∀ i, i < k → (responses i).status = 400) →
      ((200 ≤ (responses k).status ∧ (responses k).status ≤ 299 →
        poll_for_token responses interval expires_in =
          match (responses k).token with
          | some t => PollOutcome.ok t
          | none => PollOutcome.parseError) ∧
       (¬ (200 ≤ (responses k).status ∧ (responses k).status ≤ 299) →
        (responses k).status ≠ 400 →
        poll_for_token responses interval expires_in =
          PollOutcome.protocolError (responses k).status)) := by
  constructor
  · intro hall
    rw [poll_for_token,
      pollLoop_reach responses (expires_in / interval) (expires_in / interval) 0
        (fun i hi => by simpa using hall i hi) (le_refl _)]
    simp [pollLoop]
  · intro k hk h400
    have hreach : pollLoop responses (expires_in / interval) 0 =
        pollLoop responses (expires_in / interval - k) k := by
      have := pollLoop_reach responses k (expires_in / interval) 0
        (fun i hi => by simpa using h400 i hi) (by omega)
      simpa using this
    obtain ⟨f, hf⟩ : ∃ f, expires_in / interval - k = f + 1 :=
      ⟨expires_in / interval - k - 1, by omega⟩
    constructor
    · intro h2xx
      rw [poll_for_token, hreach, hf, pollLoop, if_pos h2xx]
    · intro hn2xx hn400
      rw [poll_for_token, hreach, hf, pollLoop, if_neg hn2xx, if_pos hn400]

/-- Witness for the amended C9: thirty pending responses with
`interval = 5, expires_in = 1800` do not terminate polling — the 200 on
attempt 30 yields the token. -/
theorem claim_C9_amended_polling_witness :
    poll_for_token responsesC9 5 1800 = PollOutcome.ok "tok" := by
  have h := ((claim_C9_amended_polling responsesC9 5 1800).2 30 (by norm_num)
    (fun i hi => by simp [responsesC9, hi])).1 (by simp [responsesC9])
  simpa [responsesC9] using h

lemma b64val_b64char : ∀ n, n < 64 → b64val (b64char n) = some n := by decide

lemma b64char_ne_pad : ∀ n, n < 64 → b64char n ≠ '=' := by decide

theorem base64_roundtrip : ∀ bs : List Nat, (∀ b ∈ bs, b < 256) →
    base64Decode (base64Encode bs) = some bs := by
  intro bs
  induction bs using base64Encode.induct with
  | case1 => intro _; rfl
  | case2 b1 =>
      intro h
      have hb1 : b1 < 256 := h b1 (by simp)
      simp only [base64Encode, base64Decode]
      rw [if_pos (by simp)]
      rw [b64val_b64char _ (by omega), b64val_b64char _ (by omega)]
      simp only [Option.bind, Option.map, Option.some.injEq, List.cons.injEq, and_true]
      omega
  | case3 b1 b2 =>
      intro h
      have hb1 : b1 < 256 := h b1 (by simp)
      have hb2 : b2 < 256 := h b2 (by simp)
      simp only [base64Encode, base64Decode]
      rw [if_neg (fun hcon => b64char_ne_pad _ (by omega) hcon.1)]
      rw [if_pos (by simp)]
      rw [b64val_b64char _ (by omega), b64val_b64char _ (by omega),
        b64val_b64char _ (by omega)]
      simp only [Option.bind, Option.map, Option.some.injEq, List.cons.injEq, and_true]
      omega
  | case4 b1 b2 b3 rest ih =>
      intro h
      have hb1 : b1 < 256 := h b1 (by simp)
      have hb2 : b2 < 256 := h b2 (by simp)
      have hb3 : b3 < 256 := h b3 (by simp)
      simp only [base64Encode, base64Decode]
      rw [if_neg (fun hcon => b64char_ne_pad _ (by omega) hcon.1)]
      rw [if_neg (fun hcon => b64char_ne_pad _ (by omega) hcon.1)]
      rw [b64val_b64char _ (by omega), b64val_b64char _ (by omega),
        b64val_b64char _ (by omega), b64val_b64char _ (by omega)]
      rw [ih (fun b hb => h b (by simp [hb]))]
      simp only [Option.bind, Option.map, Option.some.injEq, List.cons.injEq, and_true]
      omega

lemma stringToBytes_lt (s : String) : ∀ b ∈ stringToBytes s, b < 256 := by
  intro b hb
  simp only [stringToBytes, List.mem_map] at hb
  obtain ⟨u, _, rfl⟩ := hb
  exact u.val.isLt

/-- C8: base64-decoding the output of `generate_payload` recovers exactly
the UTF-8 bytes of the serde_json encoding of a one-element array whose
element has `event = "minute-watched"` and a `properties` object with
exactly the nine constant/target fields plus `user_id` from the session,
each with its expected scalar type. -/
theorem claim_C8_payload_shape (auth : AuthState) (target : WatchTarget) :
    base64Decode (generate_payload auth target).data =
      some (stringToBytes (serializeJson (Json.arr [Json.obj [
        ("event", Json.str "minute-watched"),
        ("properties", Json.obj [
          ("broadcast_id", Json.str target.broadcast_id),
          ("channel_id", Json.str target.channel_id),
          ("channel", Json.str target.channel_login),
          ("hidden", Json.bool false),
          ("live", Json.bool true),
          ("location", Json.str "channel"),
          ("logged_in", Json.bool true),
          ("muted", Json.bool false),
          ("player", Json.str "site"),
          ("user_id", Json.natNum auth.user_id)])]]))) :=
  base64_roundtrip _ (stringToBytes_lt _)

lemma qabs_le_of_natAbs_le {x : Int} {n : Nat} (h : x.natAbs ≤ n) :
    |(x : ℚ)| ≤ (n : ℚ) := by
  calc |(x : ℚ)| = ((x.natAbs : Int) : ℚ) := by
        rw [← Int.cast_abs, Int.abs_eq_natAbs]
    _ ≤ (n : ℚ) := by exact_mod_cast h

lemma FVal.add_finite_of_bounded {a b : ℚ} (ha : |a| ≤ 2 ^ 40) (hb : |b| ≤ 2 ^ 40) :
    FVal.add (.finite a) (.finite b) = .finite (a + b) := by
  simp only [FVal.add]
  rw [if_neg]
  rw [not_lt]
  calc |a + b| ≤ |a| + |b| := abs_add a b
    _ ≤ (2 : ℚ) ^ 40 + 2 ^ 40 := by linarith
    _ ≤ FVal.maxF := by norm_num [FVal.maxF]

lemma current_minutes_eq (d : TimedDrop) :
    d.current_minutes
      = (d.server_minutes : ℚ) + (d.extra_minutes : ℚ) + (d.extra_seconds : ℚ) / 60 :=
  rfl

lemma current_minutes_abs_le {d : TimedDrop} (hb : dropBounded d) :
    |d.current_minutes| ≤ 2 ^ 40 := by
  obtain ⟨h1, h2, h3, h4⟩ := hb
  have hs := qabs_le_of_natAbs_le h2
  have hm := qabs_le_of_natAbs_le h3
  have he := qabs_le_of_natAbs_le h4
  have hp : ((2 ^ 31 : Nat) : ℚ) = 2 ^ 31 := by norm_num
  rw [hp] at hs hm he
  have h60 : |(d.extra_seconds : ℚ) / 60| ≤ (2 : ℚ) ^ 31 := by
    rw [abs_div, abs_of_pos (by norm_num : (0:ℚ) < 60)]
    exact le_trans (div_le_self (abs_nonneg _) (by norm_num)) he
  rw [current_minutes_eq]
  calc |(d.server_minutes : ℚ) + (d.extra_minutes : ℚ) + (d.extra_seconds : ℚ) / 60|
      ≤ |(d.server_minutes : ℚ) + (d.extra_minutes : ℚ)| + |(d.extra_seconds : ℚ) / 60| :=
        abs_add _ _
    _ ≤ |(d.server_minutes : ℚ)| + |(d.extra_minutes : ℚ)| + |(d.extra_seconds : ℚ) / 60| := by
        have := abs_add (d.server_minutes : ℚ) (d.extra_minutes : ℚ)
        linarith
    _ ≤ (2:ℚ) ^ 31 + 2 ^ 31 + 2 ^ 31 := by linarith
    _ ≤ 2 ^ 40 := by norm_num

lemma current_minutesF_eq {d : TimedDrop} (hb : dropBounded d) :
    d.current_minutesF = FVal.finite d.current_minutes := by
  obtain ⟨h1, h2, h3, h4⟩ := hb
  have hs := qabs_le_of_natAbs_le h2
  have hm := qabs_le_of_natAbs_le h3
  have he := qabs_le_of_natAbs_le h4
  have hp : ((2 ^ 31 : Nat) : ℚ) = 2 ^ 31 := by norm_num
  rw [hp] at hs hm he
  unfold TimedDrop.current_minutesF
  simp only [FVal.div60]
  rw [FVal.add_finite_of_bounded (le_trans hs (by norm_num)) (le_trans hm (by norm_num))]
  rw [FVal.add_finite_of_bounded]
  · rw [current_minutes_eq]
  · calc |(d.server_minutes : ℚ) + (d.extra_minutes : ℚ)|
        ≤ |(d.server_minutes : ℚ)| + |(d.extra_minutes : ℚ)| := abs_add _ _
      _ ≤ (2:ℚ) ^ 40 := by linarith [(by norm_num : (2:ℚ)^31 + 2^31 ≤ 2^40)]
  · rw [abs_div, abs_of_pos (by norm_num : (0:ℚ) < 60)]
    calc |(d.extra_seconds : ℚ)| / 60 ≤ |(d.extra_seconds : ℚ)| :=
          div_le_self (abs_nonneg _) (by norm_num)
      _ ≤ (2:ℚ) ^ 40 := le_trans he (by norm_num)

lemma remaining_minutesF_eq {d : TimedDrop} (hb : dropBounded d) :
    d.remaining_minutesF = FVal.finite d.remaining_minutes := by
  have hreq := qabs_le_of_natAbs_le hb.1
  have hp : ((2 ^ 31 : Nat) : ℚ) = 2 ^ 31 := by norm_num
  rw [hp] at hreq
  unfold TimedDrop.remaining_minutesF FVal.sub
  rw [current_minutesF_eq hb]
  simp only [FVal.neg]
  rw [FVal.add_finite_of_bounded (le_trans hreq (by norm_num))
    (by rw [abs_neg]; exact current_minutes_abs_le hb)]
  simp only [FVal.fmaxRust, FVal.fle]
  unfold TimedDrop.remaining_minutes
  split_ifs with h
  · simp only [decide_eq_true_eq] at h
    rw [max_eq_right (by linarith)]
  · simp only [decide_eq_true_eq, not_le] at h
    rw [max_eq_left (by linarith)]
    congr 1
    ring

lemma is_claimedF_eq {d : TimedDrop} (hb : dropBounded d) :
    d.is_claimedF = d.is_claimed := by
  unfold TimedDrop.is_claimedF TimedDrop.is_claimed
  rw [current_minutesF_eq hb]
  simp only [FVal.fle]

lemma partialCmp_finite (a b : ℚ) :
    FVal.partialCmp (.finite a) (.finite b) =
      some (if a = b then Ordering.eq
            else if a ≤ b then Ordering.lt else Ordering.gt) := by
  simp only [FVal.partialCmp, FVal.fle]
  by_cases h1 : a = b
  · rw [if_pos (by rw [h1]), if_pos h1]
  · rw [if_neg (by simpa using h1), if_neg h1]
    by_cases h2 : a ≤ b
    · rw [if_pos (by simpa using h2), if_pos h2]
    · rw [if_neg (by simpa using h2), if_neg h2]

set_option maxRecDepth 4000 in
lemma minByAuxF_eq : ∀ (ds : List TimedDrop) (acc : TimedDrop),
    dropBounded acc → (∀ d ∈ ds, dropBounded d) →
    minByAuxF acc ds = some (DropsCampaign.minByRemainingAux acc ds) := by
  intro ds
  induction ds with
  | nil => intro acc _ _; rfl
  | cons y ys ih =>
      intro acc hacc hys
      have hy : dropBounded y := hys y (by simp)
      have hys' : ∀ d ∈ ys, dropBounded d := fun d hd => hys d (by simp [hd])
      simp only [minByAuxF, DropsCampaign.minByRemainingAux]
      rw [remaining_minutesF_eq hacc, remaining_minutesF_eq hy, partialCmp_finite]
      show minByAuxF
          (if (if acc.remaining_minutes = y.remaining_minutes then Ordering.eq
               else if acc.remaining_minutes ≤ y.remaining_minutes then Ordering.lt
               else Ordering.gt) = Ordering.gt then y else acc) ys = _
      by_cases heq : acc.remaining_minutes = y.remaining_minutes
      · rw [if_pos heq]
        rw [if_neg (by decide : ¬ Ordering.eq = Ordering.gt)]
        rw [if_neg (not_lt.mpr (le_of_eq heq))]
        exact ih acc hacc hys'
      · rw [if_neg heq]
        by_cases hle : acc.remaining_minutes ≤ y.remaining_minutes
        · rw [if_pos hle]
          rw [if_neg (by decide : ¬ Ordering.lt = Ordering.gt)]
          rw [if_neg (not_lt.mpr hle)]
          exact ih acc hacc hys'
        · rw [if_neg hle]
          rw [if_pos (by rfl : Ordering.gt = Ordering.gt)]
          rw [if_pos (lt_of_not_le hle)]
          exact ih y hy hys'

lemma minByAux_mem : ∀ (ds : List TimedDrop) (acc : TimedDrop),
    DropsCampaign.minByRemainingAux acc ds ∈ acc :: ds := by
  intro ds
  induction ds with
  | nil => intro acc; simp [DropsCampaign.minByRemainingAux]
  | cons y ys ih =>
      intro acc
      simp only [DropsCampaign.minByRemainingAux]
      rcases List.mem_cons.mp (ih (if y.remaining_minutes < acc.remaining_minutes then y else acc)) with h1 | h2
      · rw [h1]
        split_ifs
        · simp
        · simp
      · simp [List.mem_cons.mpr (Or.inr (List.mem_cons.mpr (Or.inr h2)))]

lemma minByAux_le : ∀ (ds : List TimedDrop) (acc x : TimedDrop), x ∈ acc :: ds →
    (DropsCampaign.minByRemainingAux acc ds).remaining_minutes ≤ x.remaining_minutes := by
  intro ds
  induction ds with
  | nil =>
      intro acc x hx
      simp at hx
      subst hx
      exact le_refl _
  | cons y ys ih =>
      intro acc x hx
      simp only [DropsCampaign.minByRemainingAux]
      have hstep : ∀ z, z = (if y.remaining_minutes < acc.remaining_minutes then y else acc) →
          z.remaining_minutes ≤ acc.remaining_minutes ∧
            z.remaining_minutes ≤ y.remaining_minutes := by
        intro z hz
        split_ifs at hz with hlt
        · subst hz; exact ⟨le_of_lt hlt, le_refl _⟩
        · subst hz; exact ⟨le_refl _, not_lt.mp hlt⟩
      obtain ⟨hza, hzy⟩ := hstep _ rfl
      have hhead := ih (if y.remaining_minutes < acc.remaining_minutes then y else acc)
        (if y.remaining_minutes < acc.remaining_minutes then y else acc) (by simp)
      rcases List.mem_cons.mp hx with rfl | hx2
      · exact le_trans hhead hza
      · rcases List.mem_cons.mp hx2 with rfl | hx3
        · exact le_trans hhead hzy
        · exact ih _ x (List.mem_cons.mpr (Or.inr hx3))

/-- C10: for drops whose integer fields are `i32`-bounded, the `f64`
shadow of `remaining_minutes` is a finite value (never NaN), so
`first_unclaimed_drop`'s `partial_cmp(..).unwrap()` never panics: the
shadow computation returns (without the panic value) exactly the rational
model's answer — an unclaimed drop of minimal remaining minutes, or
`None` exactly when every drop is claimed. -/
theorem claim_C10_first_unclaimed_total (c : DropsCampaign)
    (hb : ∀ d ∈ c.time_based_drops, dropBounded d) :
    (∀ d ∈ c.time_based_drops, d.remaining_minutesF = FVal.finite d.remaining_minutes) ∧
    first_unclaimed_dropF c = some c.first_unclaimed_drop ∧
    (c.first_unclaimed_drop = none ↔ ∀ d ∈ c.time_based_drops, d.is_claimed = true) ∧
    ∀ d, c.first_unclaimed_drop = some d →
      d ∈ c.time_based_drops ∧ d.is_claimed = false ∧
      ∀ e ∈ c.time_based_drops, e.is_claimed = false →
        d.remaining_minutes ≤ e.remaining_minutes := by
  have hfilter : c.time_based_drops.filter (fun d => !d.is_claimedF)
      = c.time_based_drops.filter (fun d => !d.is_claimed) :=
    List.filter_congr fun d hd => by rw [is_claimedF_eq (hb d hd)]
  refine ⟨fun d hd => remaining_minutesF_eq (hb d hd), ?_, ?_, ?_⟩
  · unfold first_unclaimed_dropF DropsCampaign.first_unclaimed_drop
    rw [hfilter]
    cases hf : c.time_based_drops.filter (fun d => !d.is_claimed) with
    | nil => rfl
    | cons d ds =>
        have hmem : ∀ x ∈ d :: ds, dropBounded x := by
          intro x hx
          rw [← hf] at hx
          exact hb x (List.mem_of_mem_filter hx)
        show (minByAuxF d ds).map some
          = some (some (DropsCampaign.minByRemainingAux d ds))
        rw [minByAuxF_eq ds d (hmem d (by simp)) fun x hx => hmem x (by simp [hx])]
        rfl
  · unfold DropsCampaign.first_unclaimed_drop
    cases hf : c.time_based_drops.filter (fun d => !d.is_claimed) with
    | nil =>
        constructor
        · intro _ d hd
          have := List.filter_eq_nil_iff.mp hf d hd
          simpa using this
        · intro _; rfl
    | cons a as =>
        constructor
        · intro hcon; simp at hcon
        · intro hall
          exfalso
          have hx : a ∈ c.time_based_drops.filter (fun d => !d.is_claimed) := by
            rw [hf]; simp
          obtain ⟨hmem, hncl⟩ := List.mem_filter.mp hx
          rw [hall a hmem] at hncl
          simp at hncl
  · intro d hd
    unfold DropsCampaign.first_unclaimed_drop at hd
    cases hf : c.time_based_drops.filter (fun x => !x.is_claimed) with
    | nil => rw [hf] at hd; simp at hd
    | cons a as =>
        rw [hf] at hd
        simp only [Option.some.injEq] at hd
        have hmm := minByAux_mem as a
        have hdf : d ∈ c.time_based_drops.filter (fun x => !x.is_claimed) := by
          rw [hf, ← hd]
          exact hmm
        obtain ⟨hmem, hncl⟩ := List.mem_filter.mp hdf
        refine ⟨hmem, by simpa using hncl, ?_⟩
        intro e he hecl
        have hef : e ∈ c.time_based_drops.filter (fun x => !x.is_claimed) :=
          List.mem_filter.mpr ⟨he, by simp [hecl]⟩
        rw [hf] at hef
        rw [← hd]
        exact minByAux_le as a e hef

/-- Witness for C10 at a concrete two-drop campaign. -/
theorem claim_C10_first_unclaimed_total_witness :
    first_unclaimed_dropF campaignC10 = some campaignC10.first_unclaimed_drop :=
  (claim_C10_first_unclaimed_total campaignC10 (by decide)).2.1

end TwitchMiner
